import Mathlib

/-!
Verification of the text-extraction core of `chinese_extractor_gui.py`.

The program's testable core is two pure functions:

* `extract_chinese_text`: splits the raw text into lines, trims each line,
  skips empty lines and purely-non-Chinese parenthetical annotation lines,
  strips a leading ordinal marker, deletes ASCII- and fullwidth-parenthesised
  substrings, keeps only allow-listed characters, trims, and concatenates the
  non-empty per-line results with no separator.
* `convert_chinese`: converts between Simplified and Traditional script via
  OpenCC, falling back to HanziConv, falling back to the identity.

We embed both over `List Char` / `String`, mirroring the Python string and
`re` primitives the source uses (`str.strip`, `str.splitlines`, and the four
regular expressions), and prove the specified properties.
-/

namespace ChineseExtractor

/-- Python whitespace (`str.isspace`, and `\s` in the source's regexes over
`str`): ASCII whitespace, the C0 separator controls U+001C–U+001F, NEL U+0085,
and the Unicode space separators. -/
def pyIsSpace (c : Char) : Bool :=
  c = ' ' || c = '\t' || c = '\n' || c = '\x0b' || c = '\x0c' || c = '\r' ||
  c = '\x1c' || c = '\x1d' || c = '\x1e' || c = '\x1f' ||
  c = '\x85' || c = '\xa0' || c = '\u1680' ||
  ('\u2000' ≤ c && c ≤ '\u200a') ||
  c = '\u2028' || c = '\u2029' || c = '\u202f' || c = '\u205f' || c = '\u3000'

/-- The digit class `\d` of the source's ordinal regex. Python matches any
Unicode decimal digit (category Nd); the texts this tool is written for carry
their ordinals in ASCII or fullwidth digits, which is the fragment modelled
here. -/
def pyIsDigit (c : Char) : Bool :=
  ('0' ≤ c && c ≤ '9') || ('０' ≤ c && c ≤ '９')

/-- A CJK ideograph: the range `一`–`鿿` used by the source's regexes. -/
def isCJK (c : Char) : Bool :=
  '一' ≤ c && c ≤ '鿿'

/-- The fixed CJK punctuation allow-list spelled out in the retained-character
class of the source (line 57). -/
def cjkPunct : List Char :=
  ['，', '。', '！', '？', '；', '：', '、', '“', '”', '‘', '’',
   '《', '》', '【', '】', '（', '）', '—', '…', '·']

/-- Membership in the retained-character class
`[一-鿿A-Za-z0-9，。！？；：、“”‘’《》【】（）—…·\s]` of the source. -/
def allowChar (c : Char) : Bool :=
  isCJK c || ('A' ≤ c && c ≤ 'Z') || ('a' ≤ c && c ≤ 'z') ||
  ('0' ≤ c && c ≤ '9') || cjkPunct.contains c || pyIsSpace c

/-- The line boundaries recognised by Python's `str.splitlines` (besides the
two-character boundary CRLF, handled separately). -/
def isLineBreak (c : Char) : Bool :=
  c = '\n' || c = '\r' || c = '\x0b' || c = '\x0c' ||
  c = '\x1c' || c = '\x1d' || c = '\x1e' ||
  c = '\x85' || c = '\u2028' || c = '\u2029'

/-- Worker for `pySplitlines`: `acc` is the current line, reversed. A final
segment is emitted only when non-empty, matching Python's rule that a trailing
line boundary does not produce a trailing empty line. -/
def pySplitlinesAux : List Char → List Char → List (List Char)
  | [], acc => if acc.isEmpty then [] else [acc.reverse]
  | '\r' :: '\n' :: rest, acc => acc.reverse :: pySplitlinesAux rest []
  | c :: rest, acc =>
    if isLineBreak c then acc.reverse :: pySplitlinesAux rest []
    else pySplitlinesAux rest (c :: acc)

/-- Python's `str.splitlines` over a character list. -/
def pySplitlines (cs : List Char) : List (List Char) :=
  pySplitlinesAux cs []

/-- Remove trailing Python whitespace. -/
def dropTrailing (cs : List Char) : List Char :=
  (cs.reverse.dropWhile pyIsSpace).reverse

/-- Python's `str.strip` over a character list: drop leading and trailing
whitespace. -/
def pyStrip (cs : List Char) : List Char :=
  dropTrailing (cs.dropWhile pyIsSpace)

/-- Python's `str.strip` at the `String` level. -/
def pyStripString (s : String) : String :=
  String.mk (pyStrip s.data)

/-- Decides whether the anchored ordinal regex `^\s*\d+\s*[\.、]\s*` of the
source (line 50) matches at the start of the line. The regex's character
classes (whitespace, digits, the two separators) are pairwise disjoint, so
greedy matching is this deterministic maximal munch: skip whitespace, require
a digit, skip digits, skip whitespace, require `.` or `、`. -/
def hasOrdinalMark (cs : List Char) : Bool :=
  match cs.dropWhile pyIsSpace with
  | c :: _ =>
    pyIsDigit c &&
      (match ((cs.dropWhile pyIsSpace).dropWhile pyIsDigit).dropWhile pyIsSpace with
       | d :: _ => d = '.' || d = '、'
       | [] => false)
  | [] => false

/-- The substitution `re.sub(r"^\s*\d+\s*[\.、]\s*", "", line)` of the source
(line 50): when the anchored regex matches, its match — leading whitespace,
the digits, inner whitespace, the separator (removed here by `tail`), and
trailing whitespace — is deleted from the front of the line; otherwise the
line is returned unchanged. -/
def stripOrdinal (cs : List Char) : List Char :=
  if hasOrdinalMark cs then
    ((((cs.dropWhile pyIsSpace).dropWhile pyIsDigit).dropWhile pyIsSpace).tail).dropWhile
      pyIsSpace
  else cs

mutual

/-- The substitution `re.sub(r"\(［^)］*\)", "", line)` for a generic
opening/closing pair (the source applies it with ASCII parentheses on line 53
and fullwidth parentheses on line 54). The regex deletes, scanning left to
right, each occurrence of `op` together with everything up to and including
the first `cl` after it (the leftmost match of the non-greedy pattern), and
an `op` with no `cl` after it is left in place. This is realised as a
two-state scan: `removeDelim` copies characters until it meets `op`, then
`removeDelimSkip` discards up to the closing `cl` — restoring the buffered
characters verbatim when the input ends with the parenthesis never closed. -/
def removeDelim (op cl : Char) : List Char → List Char
  | [] => []
  | c :: rest =>
    if c = op then removeDelimSkip op cl [c] rest
    else c :: removeDelim op cl rest

def removeDelimSkip (op cl : Char) (buf : List Char) : List Char → List Char
  | [] => buf.reverse
  | c :: rest =>
    if c = cl then removeDelim op cl rest
    else removeDelimSkip op cl (c :: buf) rest

end

/-- The line test `re.fullmatch(r"\(［^一-鿿］*\)", line)` of the
source (line 46): the line is exactly an ASCII `(`, then zero or more
non-CJK-ideograph characters, then an ASCII `)`. After the opening
parenthesis, `endsParenNonCJK` checks that the remainder is a string of
non-CJK characters terminated by `)`. -/
def endsParenNonCJK : List Char → Bool
  | [] => false
  | [c] => c = ')'
  | c :: rest => !isCJK c && endsParenNonCJK rest

/-- Whether the whole (already trimmed) line is a purely non-Chinese
parenthetical annotation line, to be skipped. -/
def parenNoteLine : List Char → Bool
  | '(' :: rest => endsParenNonCJK rest
  | _ => false

/-- One iteration of the loop body of `extract_chinese_text` (source lines
41–61) on an already-trimmed line: empty lines and parenthetical annotation
lines contribute nothing; otherwise strip the ordinal marker, delete ASCII-
and fullwidth-parenthesised substrings, keep only allow-listed characters
(`"".join(re.findall(...))` equals filtering by the character class), and trim. -/
def processLine (line : List Char) : List Char :=
  if line.isEmpty then []
  else if parenNoteLine line then []
  else
    let l1 := stripOrdinal line
    let l2 := removeDelim '(' ')' l1
    let l3 := removeDelim '（' '）' l2
    pyStrip (l3.filter allowChar)

/-- The Extractor, `extract_chinese_text` of the source (lines 33–63): early
return for blank input, then per-line processing of the trimmed lines, the
non-empty results joined with no separator (`"".join` over the loop's
accumulator is the flat concatenation of all per-line results). -/
def extract_chinese_text (raw_text : String) : String :=
  if pyStrip raw_text.data = [] then ""
  else String.mk (((pySplitlines raw_text.data).map pyStrip).flatMap processLine)

/-- The conversion capabilities present in the runtime environment:
`opencc`, when importable, converts by mode string; `hanzi`, when importable,
offers the pair (toSimplified, toTraditional). `none` models an import that
fails (the `except` branches of the source). -/
structure ConvEnv where
  opencc : Option (String → String → String)
  hanzi : Option ((String → String) × (String → String))

/-- The Script Converter, `convert_chinese` of the source (lines 12–30):
try OpenCC, then HanziConv (toSimplified for mode "t2s", toTraditional for
mode "s2t", otherwise the input), and finally return the input unchanged. -/
def convert_chinese (env : ConvEnv) (text : String) (mode : String) : String :=
  match env.opencc with
  | some occ => occ mode text
  | none =>
    match env.hanzi with
    | some pair =>
      if mode = "t2s" then pair.1 text
      else if mode = "s2t" then pair.2 text
      else text
    | none => text

/-- The environment in which neither conversion library is importable. -/
def noConv : ConvEnv := ⟨none, none⟩

/-- The non-empty retained per-line texts of the Extractor, in input order:
the list the source accumulates in `result_parts`. -/
def lineParts (raw_text : String) : List (List Char) :=
  (((pySplitlines raw_text.data).map pyStrip).map processLine).filter
    (fun p => !p.isEmpty)

/-- A character list carrying no leading and no trailing Python whitespace
(the shape of every per-line contribution, which the source trims with
`.strip()` before appending). -/
def Stripped (l : List Char) : Prop :=
  (∀ c, l.head? = some c → pyIsSpace c = false) ∧
  (∀ c, l.getLast? = some c → pyIsSpace c = false)

/-- Helper for C3: a line on which the anchored ordinal regex does not match
is returned unchanged by the ordinal-stripping substitution. -/
theorem stripOrdinal_eq_self (cs : List Char) (h : hasOrdinalMark cs = false) :
    stripOrdinal cs = cs := by
  simp [stripOrdinal, h]

/-- Helper for C4: once the scanner is inside a parenthesis, it discards
everything up to the first closing delimiter and resumes the outer scan. -/
theorem removeDelimSkip_through (op cl : Char) (buf : List Char) :
    ∀ ys zs : List Char, cl ∉ ys →
      removeDelimSkip op cl buf (ys ++ cl :: zs) = removeDelim op cl zs := by
  intro ys
  induction ys generalizing buf with
  | nil => intro zs _; simp [removeDelimSkip]
  | cons y t ih =>
    intro zs h
    have hy : ¬(y = cl) := fun e => h (by simp [e])
    simp only [List.cons_append, removeDelimSkip, if_neg hy]
    exact ih _ zs (fun m => h (List.mem_cons_of_mem _ m))

/-- Helper for C4: every `op`-delimited substring with a closing `cl` is
removed, leaving the surrounding text; scanning resumes after the closer. -/
theorem removeDelim_removes (op cl : Char) :
    ∀ xs ys zs : List Char, op ∉ xs → cl ∉ ys →
      removeDelim op cl (xs ++ op :: (ys ++ cl :: zs)) =
        xs ++ removeDelim op cl zs := by
  intro xs
  induction xs with
  | nil =>
    intro ys zs _ hy
    simp only [List.nil_append, removeDelim, if_pos rfl]
    exact removeDelimSkip_through op cl [op] ys zs hy
  | cons x t ih =>
    intro ys zs hx hy
    have hxop : ¬(x = op) := fun e => hx (by simp [e])
    simp only [List.cons_append, removeDelim, if_neg hxop, List.append_eq]
    rw [ih ys zs (fun m => hx (List.mem_cons_of_mem _ m)) hy]

/-- C1: for the input string "1.（画外音）你好，世界！\n2.(subtitle) 再见。",
when no conversion library is available, the full extract-then-convert
pipeline returns exactly "你好，世界！再见。" — the ordinals are stripped from
both lines, the full-width and the ASCII parentheticals are removed, and the
two retained line texts are concatenated with no separator. -/
theorem extract_convert_end_to_end (mode : String) :
    convert_chinese noConv
        (extract_chinese_text "1.（画外音）你好，世界！\n2.(subtitle) 再见。") mode =
      "你好，世界！再见。" := by
  have h : extract_chinese_text "1.（画外音）你好，世界！\n2.(subtitle) 再见。" =
      "你好，世界！再见。" := by decide
  exact h

/-- C2: for every string and every direction flag, when neither conversion
library is reachable, the Script Converter returns its input unchanged. -/
theorem convert_chinese_identity_without_libs (text mode : String) :
    convert_chinese noConv text mode = text := rfl

/-- C3: the Extractor strips a leading ordinal marker — optional whitespace,
digits, optional whitespace, a separator that is "." or "、", optional
whitespace — from the start of each line ("12. 你好世界" and "3、测试" as
specified), and a line on which that pattern does not match is processed with
its full content kept by the ordinal-stripping step. -/
theorem ordinal_mark_stripping :
    extract_chinese_text "12. 你好世界" = "你好世界" ∧
    extract_chinese_text "3、测试" = "测试" ∧
    ∀ cs : List Char, hasOrdinalMark cs = false → stripOrdinal cs = cs :=
  ⟨by decide, by decide, stripOrdinal_eq_self⟩

/-- Witness for C3 at concrete inputs: "你好世界" carries no ordinal marker
and is left unchanged by the stripping step. -/
theorem ordinal_mark_stripping_witness :
    hasOrdinalMark ['你', '好', '世', '界'] = false ∧
    stripOrdinal ['你', '好', '世', '界'] = ['你', '好', '世', '界'] :=
  ⟨by decide, ordinal_mark_stripping.2.2 ['你', '好', '世', '界'] (by decide)⟩

/-- C4: substrings enclosed in ASCII parentheses and substrings enclosed in
full-width parentheses are removed from the line, non-greedily per occurrence,
before the allow-list filter: "他说（你好）世界" yields "他说世界",
"A(note)B" retains exactly "AB", and in general any parenthesised substring
whose interior has no closing delimiter is deleted together with its
delimiters. -/
theorem paren_removal :
    extract_chinese_text "他说（你好）世界" = "他说世界" ∧
    extract_chinese_text "A(note)B" = "AB" ∧
    ∀ xs ys zs : List Char, '(' ∉ xs → ')' ∉ ys →
      removeDelim '(' ')' (xs ++ '(' :: (ys ++ ')' :: zs)) =
        xs ++ removeDelim '(' ')' zs :=
  ⟨by decide, by decide, removeDelim_removes '(' ')'⟩

/-- Witness for C4 at concrete lists: removing "(note)" from "A(note)B". -/
theorem paren_removal_witness :
    ('(' ∉ ['A']) ∧ (')' ∉ ['n', 'o', 't', 'e']) ∧
    removeDelim '(' ')' (['A'] ++ '(' :: (['n', 'o', 't', 'e'] ++ ')' :: ['B'])) =
      ['A'] ++ removeDelim '(' ')' ['B'] :=
  ⟨by decide, by decide,
    paren_removal.2.2 ['A'] ['n', 'o', 't', 'e'] ['B'] (by decide) (by decide)⟩

/-- C5: a line whose entire trimmed content is an ASCII opening parenthesis,
zero or more characters none of which is a CJK ideograph, and an ASCII
closing parenthesis, is skipped entirely: its per-line contribution to the
Extractor's output is empty. -/
theorem paren_note_line_skipped (l : List Char)
    (h : parenNoteLine (pyStrip l) = true) :
    processLine (pyStrip l) = [] := by
  unfold processLine
  by_cases he : (pyStrip l).isEmpty
  · simp [he]
  · simp [he, h]

/-- Witness for C5: the annotation line "(wide shot)" contributes nothing. -/
theorem paren_note_line_skipped_witness :
    parenNoteLine (pyStrip (" (wide shot) ").data) = true ∧
    processLine (pyStrip (" (wide shot) ").data) = [] :=
  ⟨by decide, paren_note_line_skipped (" (wide shot) ").data (by decide)⟩

/-- C6: ASCII letters and decimal digits are in the allow-list, so the filter
retains them; in particular the line "AI技术20年" passes the allow-list filter
unmodified and is returned whole by the Extractor, with the mixed tokens
"AI" and "20" untouched. -/
theorem ascii_alnum_retained :
    (∀ c : Char,
        ('A' ≤ c ∧ c ≤ 'Z') ∨ ('a' ≤ c ∧ c ≤ 'z') ∨ ('0' ≤ c ∧ c ≤ '9') →
        allowChar c = true) ∧
    ("AI技术20年").data.filter allowChar = ("AI技术20年").data ∧
    extract_chinese_text "AI技术20年" = "AI技术20年" := by
  refine ⟨?_, by decide, by decide⟩
  intro c h
  rcases h with ⟨h1, h2⟩ | ⟨h1, h2⟩ | ⟨h1, h2⟩ <;> simp [allowChar, h1, h2]

/-- Witness for C6: the letter A is retained by the allow-list. -/
theorem ascii_alnum_retained_witness : allowChar 'A' = true :=
  ascii_alnum_retained.1 'A' (Or.inl ⟨by decide, by decide⟩)

/-- Helper: dropping while a predicate holds over a list on which it holds
everywhere drops the whole list. -/
theorem dropWhile_eq_nil_of_all {p : Char → Bool} {l : List Char}
    (h : ∀ c ∈ l, p c = true) : l.dropWhile p = [] :=
  List.dropWhile_eq_nil_iff.mpr h

/-- Helper: a list of whitespace characters strips to the empty list. -/
theorem pyStrip_eq_nil_of_all_space {l : List Char}
    (h : ∀ c ∈ l, pyIsSpace c = true) : pyStrip l = [] := by
  unfold pyStrip dropTrailing
  rw [dropWhile_eq_nil_of_all h]
  rfl

/-- C8: the Extractor is total — its embedding is a total computable Lean
function, so every input string is mapped to a result without any error
branch — and on every input consisting solely of whitespace (the empty
string included) it returns the empty string. -/
theorem whitespace_input_empty_output (s : String)
    (h : ∀ c ∈ s.data, pyIsSpace c = true) :
    extract_chinese_text s = "" := by
  unfold extract_chinese_text
  rw [if_pos (pyStrip_eq_nil_of_all_space h)]

/-- Witness for C8: a string of blanks, tabs and newlines yields "". -/
theorem whitespace_input_empty_output_witness :
    (∀ c ∈ (" \t\n  \r ").data, pyIsSpace c = true) ∧
    extract_chinese_text " \t\n  \r " = "" :=
  ⟨by decide, whitespace_input_empty_output " \t\n  \r " (by decide)⟩

set_option maxHeartbeats 1000000 in
/-- Helper: a character property holding on the input and on the accumulator
holds on every character of every line produced by the splitter. -/
theorem pySplitlinesAux_all {P : Char → Prop} :
    ∀ (cs acc : List Char), (∀ c ∈ cs, P c) → (∀ c ∈ acc, P c) →
      ∀ l ∈ pySplitlinesAux cs acc, ∀ c ∈ l, P c := by
  intro cs acc
  induction cs, acc using pySplitlinesAux.induct with
  | case1 acc he =>
    intro _ _ l hl
    rw [pySplitlinesAux.eq_1] at hl
    simp [he] at hl
  | case2 acc he =>
    intro _ hacc l hl c hc
    rw [pySplitlinesAux.eq_1] at hl
    simp [he] at hl
    subst hl
    exact hacc c (List.mem_reverse.mp hc)
  | case3 rest acc ih =>
    intro hcs hacc l hl c hc
    rw [pySplitlinesAux.eq_2] at hl
    rcases List.mem_cons.mp hl with h | h
    · subst h
      exact hacc c (List.mem_reverse.mp hc)
    · exact ih (fun d hd => hcs d (by simp [hd])) (by simp) l h c hc
  | case4 c0 rest acc hne hbr ih =>
    intro hcs hacc l hl c hc
    rw [pySplitlinesAux.eq_3 _ _ _ hne, if_pos hbr] at hl
    rcases List.mem_cons.mp hl with h | h
    · subst h
      exact hacc c (List.mem_reverse.mp hc)
    · exact ih (fun d hd => hcs d (by simp [hd])) (by simp) l h c hc
  | case5 c0 rest acc hne hbr ih =>
    intro hcs hacc l hl c hc
    rw [pySplitlinesAux.eq_3 _ _ _ hne, if_neg hbr] at hl
    refine ih (fun d hd => hcs d (by simp [hd])) ?_ l hl c hc
    intro d hd
    rcases List.mem_cons.mp hd with h | h
    · subst h
      exact hcs d (by simp)
    · exact hacc d h

/-- Helper: a character property holding everywhere on the input holds on
every character of every line of `pySplitlines`. -/
theorem pySplitlines_all {P : Char → Prop} (cs : List Char)
    (h : ∀ c ∈ cs, P c) : ∀ l ∈ pySplitlines cs, ∀ c ∈ l, P c :=
  pySplitlinesAux_all cs [] h (by simp)

/-- Helper: a list whose strip is empty consists of whitespace only. -/
theorem all_space_of_pyStrip_eq_nil {l : List Char} (h : pyStrip l = []) :
    ∀ c ∈ l, pyIsSpace c = true := by
  unfold pyStrip dropTrailing at h
  rw [List.reverse_eq_nil_iff, List.dropWhile_eq_nil_iff] at h
  intro c hc
  rw [← List.takeWhile_append_dropWhile (p := pyIsSpace) (l := l)] at hc
  rcases List.mem_append.mp hc with h1 | h1
  · exact List.mem_takeWhile_imp h1
  · exact h c (List.mem_reverse.mpr h1)

/-- C7: the Extractor is order-preserving and delimiter-free — for every
input, the output is the concatenation, in input order and with no inserted
separator, of the non-empty retained per-line texts (`lineParts`). -/
theorem output_is_ordered_concat (raw_text : String) :
    extract_chinese_text raw_text = String.mk (lineParts raw_text).flatten := by
  unfold extract_chinese_text lineParts
  by_cases hb : pyStrip raw_text.data = []
  · rw [if_pos hb]
    have hsp := all_space_of_pyStrip_eq_nil hb
    have hlines := pySplitlines_all raw_text.data hsp
    have hfil : ((((pySplitlines raw_text.data).map pyStrip).map processLine).filter
        (fun p => !p.isEmpty)) = [] := by
      rw [List.filter_eq_nil_iff]
      intro p hp
      rw [List.mem_map] at hp
      obtain ⟨q, hq, rfl⟩ := hp
      rw [List.mem_map] at hq
      obtain ⟨line, hline, rfl⟩ := hq
      have hnil : pyStrip line = [] :=
        pyStrip_eq_nil_of_all_space (hlines line hline)
      rw [hnil]
      simp [processLine]
    rw [hfil]
    rfl
  · rw [if_neg hb]
    have hflat : (((pySplitlines raw_text.data).map pyStrip).flatMap processLine) =
        ((((pySplitlines raw_text.data).map pyStrip).map processLine).filter
          (fun p => !p.isEmpty)).flatten := by
      rw [List.flatten_filter_not_isEmpty]
      rfl
    rw [hflat]

/-- Helper: every character of a stripped list is a character of the list. -/
theorem mem_of_mem_pyStrip {c : Char} {l : List Char} (h : c ∈ pyStrip l) :
    c ∈ l := by
  unfold pyStrip dropTrailing at h
  rw [List.mem_reverse] at h
  have h2 := List.Sublist.mem h (List.dropWhile_sublist pyIsSpace)
  rw [List.mem_reverse] at h2
  exact List.Sublist.mem h2 (List.dropWhile_sublist pyIsSpace)

/-- C9: every character of the Extractor's output is in the allow-list
(CJK ideographs, ASCII letters and digits, the fixed CJK punctuation, and
whitespace); in particular the output never contains an ASCII parenthesis or
stray ASCII punctuation such as "." or ",". -/
theorem output_chars_allowed (s : String) (c : Char)
    (h : c ∈ (extract_chinese_text s).data) :
    allowChar c = true ∧ c ≠ '(' ∧ c ≠ ')' ∧ c ≠ '.' ∧ c ≠ ',' := by
  have hall : allowChar c = true := by
    unfold extract_chinese_text at h
    by_cases hb : pyStrip s.data = []
    · rw [if_pos hb] at h
      have hnil : ("" : String).data = [] := rfl
      rw [hnil] at h
      exact absurd h (List.not_mem_nil c)
    · rw [if_neg hb] at h
      have h' : c ∈ ((pySplitlines s.data).map pyStrip).flatMap processLine := h
      rw [List.mem_flatMap] at h'
      obtain ⟨line, _, hm⟩ := h'
      unfold processLine at hm
      by_cases h1 : line.isEmpty
      · rw [if_pos h1] at hm
        exact absurd hm (List.not_mem_nil c)
      · rw [if_neg h1] at hm
        by_cases h2 : parenNoteLine line
        · rw [if_pos h2] at hm
          exact absurd hm (List.not_mem_nil c)
        · rw [if_neg h2] at hm
          have hf : c ∈ (removeDelim '（' '）'
              (removeDelim '(' ')' (stripOrdinal line))).filter allowChar :=
            mem_of_mem_pyStrip hm
          exact (List.mem_filter.mp hf).2
  refine ⟨hall, ?_, ?_, ?_, ?_⟩ <;>
    exact fun e => absurd (e ▸ hall) (by decide)

/-- Witness for C9 at a concrete input: the character 你 of the output of
extracting "1. 你好 (ok)." is allow-listed and is none of the excluded
ASCII marks. -/
theorem output_chars_allowed_witness :
    '你' ∈ (extract_chinese_text "1. 你好 (ok).").data ∧
    (allowChar '你' = true ∧ '你' ≠ '(' ∧ '你' ≠ ')' ∧ '你' ≠ '.' ∧ '你' ≠ ',') :=
  ⟨by decide, output_chars_allowed "1. 你好 (ok)." '你' (by decide)⟩

/-- Helper: the head of what `dropWhile` leaves does not satisfy the
predicate. -/
theorem head?_dropWhile_not {p : Char → Bool} :
    ∀ (l : List Char) (c : Char), (l.dropWhile p).head? = some c → p c = false := by
  intro l
  induction l with
  | nil => intro c h; simp at h
  | cons a t ih =>
    intro c h
    by_cases ha : p a
    · rw [List.dropWhile_cons_of_pos ha] at h
      exact ih c h
    · rw [List.dropWhile_cons_of_neg ha] at h
      simp only [List.head?_cons, Option.some.injEq] at h
      subst h
      simpa using ha

/-- Helper: stripping leaves no leading and no trailing whitespace. -/
theorem stripped_pyStrip (l : List Char) : Stripped (pyStrip l) := by
  constructor
  · intro c hc
    obtain ⟨t, ht⟩ :=
      List.dropWhile_suffix (l := (l.dropWhile pyIsSpace).reverse) pyIsSpace
    have hm : l.dropWhile pyIsSpace = pyStrip l ++ t.reverse := by
      unfold pyStrip dropTrailing
      calc l.dropWhile pyIsSpace
          = (l.dropWhile pyIsSpace).reverse.reverse := by rw [List.reverse_reverse]
        _ = (t ++ (l.dropWhile pyIsSpace).reverse.dropWhile pyIsSpace).reverse := by
              rw [ht]
        _ = ((l.dropWhile pyIsSpace).reverse.dropWhile pyIsSpace).reverse ++
              t.reverse := by rw [List.reverse_append]
    have hh : (l.dropWhile pyIsSpace).head? = some c := by
      rw [hm, List.head?_append, hc]
      rfl
    exact head?_dropWhile_not l c hh
  · intro c hc
    have hrev : (pyStrip l).reverse =
        (l.dropWhile pyIsSpace).reverse.dropWhile pyIsSpace := by
      unfold pyStrip dropTrailing
      rw [List.reverse_reverse]
    rw [← List.head?_reverse, hrev] at hc
    exact head?_dropWhile_not _ c hc

/-- Helper: a list with no leading and no trailing whitespace is unchanged
by stripping. -/
theorem pyStrip_eq_self_of_stripped {l : List Char} (h : Stripped l) :
    pyStrip l = l := by
  obtain ⟨h1, h2⟩ := h
  have hd : l.dropWhile pyIsSpace = l := by
    cases l with
    | nil => rfl
    | cons a t =>
      have ha := h1 a rfl
      rw [List.dropWhile_cons_of_neg (by simp [ha])]
  unfold pyStrip dropTrailing
  rw [hd]
  have hr : l.reverse.dropWhile pyIsSpace = l.reverse := by
    cases hrev : l.reverse with
    | nil => simp
    | cons a t =>
      have hla : l.getLast? = some a := by
        rw [← List.head?_reverse, hrev]
        rfl
      have ha := h2 a hla
      rw [List.dropWhile_cons_of_neg (by simp [ha])]
  rw [hr, List.reverse_reverse]

/-- Helper: the empty list is stripped. -/
theorem stripped_nil : Stripped [] :=
  ⟨fun c h => by simp at h, fun c h => by simp at h⟩

/-- Helper: concatenation preserves strippedness. -/
theorem stripped_append {a b : List Char} (ha : Stripped a) (hb : Stripped b) :
    Stripped (a ++ b) := by
  constructor
  · intro c hc
    rw [List.head?_append] at hc
    cases hah : a.head? with
    | some d =>
      rw [hah] at hc
      cases hc
      exact ha.1 c hah
    | none =>
      rw [hah] at hc
      exact hb.1 c hc
  · intro c hc
    rw [List.getLast?_append] at hc
    cases hbl : b.getLast? with
    | some d =>
      rw [hbl] at hc
      cases hc
      exact hb.2 c hbl
    | none =>
      rw [hbl] at hc
      exact ha.2 c hc

/-- Helper: the concatenation of stripped parts is stripped. -/
theorem stripped_flatten {L : List (List Char)} (h : ∀ p ∈ L, Stripped p) :
    Stripped L.flatten := by
  induction L with
  | nil => exact stripped_nil
  | cons p ps ih =>
    rw [List.flatten_cons]
    exact stripped_append (h p (by simp)) (ih (fun q hq => h q (by simp [hq])))

/-- Helper: every per-line contribution is stripped. -/
theorem stripped_processLine (line : List Char) : Stripped (processLine line) := by
  unfold processLine
  by_cases h1 : line.isEmpty
  · rw [if_pos h1]
    exact stripped_nil
  · rw [if_neg h1]
    by_cases h2 : parenNoteLine line
    · rw [if_pos h2]
      exact stripped_nil
    · rw [if_neg h2]
      exact stripped_pyStrip _

/-- C10: the Extractor's output carries no leading or trailing whitespace —
for every input string, the output equals its own whitespace-trim, because
each per-line contribution is trimmed before being appended. -/
theorem output_self_trimmed (s : String) :
    pyStripString (extract_chinese_text s) = extract_chinese_text s := by
  unfold pyStripString extract_chinese_text
  by_cases hb : pyStrip s.data = []
  · rw [if_pos hb]
    rfl
  · rw [if_neg hb]
    have hX : pyStrip (((pySplitlines s.data).map pyStrip).flatMap processLine) =
        ((pySplitlines s.data).map pyStrip).flatMap processLine := by
      apply pyStrip_eq_self_of_stripped
      have hdef : ((pySplitlines s.data).map pyStrip).flatMap processLine =
          (((pySplitlines s.data).map pyStrip).map processLine).flatten := rfl
      rw [hdef]
      apply stripped_flatten
      intro p hp
      rw [List.mem_map] at hp
      obtain ⟨q, _, rfl⟩ := hp
      exact stripped_processLine q
    show String.mk (pyStrip (((pySplitlines s.data).map pyStrip).flatMap processLine)) =
      String.mk (((pySplitlines s.data).map pyStrip).flatMap processLine)
    rw [hX]

end ChineseExtractor
